import Mathlib

/-!
Verification development for the QBAF relation-bookkeeping layer
(`src/include/relations.h`, `src/src/relations.c`).

The C code manipulates Python objects.  The shallow embedding models:

* a Python set of elements of type `α` as a `List α` in the set's (otherwise
  irrelevant) iteration order; the operations that matter (`PySet_Contains`,
  `PySet_Add`, `PySet_Discard`, `PySet_Pop`) become list membership,
  `pySetAdd` (prepend when absent, no-op when present), `pySetDiscard`,
  and taking the head;
* a Python dict from entities to sets as an association list
  `List (α × List α)`; `PyDict_Contains`/`PyDict_GetItem` find the first
  entry with the given key, `PyDict_SetItem` on a fresh key appends;
* `Py_ssize_t` as `Int` (sizes can be compared against a negative `size`
  argument in `PySet_SubSets`);
* entity objects (QBAFArgument) as an opaque type `α` with decidable
  equality (Python hash/eq of the argument objects).

Fallible C-API calls that can only fail on allocation or hash errors are
modelled as total where no claim depends on the failure, and with an
explicit failure oracle where one does (`QBAFARelations_add_fallible`).
-/

variable {α : Type} [DecidableEq α]

/-- `PySet_Add`: adding an element already in the set is a no-op, otherwise
the element joins the set (at the head in this list model; the position is
unobservable for a set). -/
def pySetAdd (l : List α) (x : α) : List α :=
  if x ∈ l then l else x :: l

/-- `PySet_Discard`: remove the element from the set if present (for a
duplicate-free list, removing the first occurrence). -/
def pySetDiscard : List α → α → List α
  | [], _ => []
  | y :: ys, x => if y = x then ys else y :: pySetDiscard ys x

/-! ## SetAlgebra (qbaf_utils.c, embedded in src/include/relations.h) -/

/-- Embedding of `PySet_IsDisjoint` (relations.h lines 68-104): if `set1` is
larger the two sets are swapped, then the (now smaller) first set is iterated
and each item is probed for membership in the second; the first common item
yields `false`, exhaustion yields `true`. -/
def PySet_IsDisjoint (set1 set2 : List α) : Bool :=
  let p := if set1.length > set2.length then (set2, set1) else (set1, set2)
  p.1.all fun item => !(decide (item ∈ p.2))

/-- Embedding of `PySet_Intersection` (relations.h lines 194-237): after the
same size-based swap, a new empty set is built up by iterating the smaller
set and adding every item that is contained in the larger one. -/
def PySet_Intersection (set1 set2 : List α) : List α :=
  let p := if set1.length > set2.length then (set2, set1) else (set1, set2)
  p.1.foldl (fun new item => if item ∈ p.2 then pySetAdd new item else new) []

/-- Embedding of the `while(PySet_GET_SIZE(myset) > 0)` loop of
`PySet_SubSets` (relations.h lines 424-480), operating on the working copy
`myset`.  Each iteration pops one item, recursively enumerates the
`(size-1)`-subsets of the remainder (the recursive call
`PySet_SubSets(myset, size-1)` is inlined here: its three branches on the
popped remainder `rest` are written out so that the recursion is structural),
adds the popped item to each returned subset, appends them to the result, and
stops early once fewer than `size` elements remain.

The C source's `size <= 0` branch (relations.h lines 387-393) builds a list
but neither returns it nor assigns it outside the branch scope, so it has no
effect on the returned value and is not part of the embedding. -/
def PySet_SubSets_loop : List α → Int → List (List α)
  | [], _ => []
  | item :: rest, size =>
    let subs :=
      if rest.length = 0 then [[]]
      else if size - 1 = 1 then rest.map fun x => [x]
      else PySet_SubSets_loop rest (size - 1)
    let extended := subs.map fun sub => pySetAdd sub item
    if (rest.length : Int) < size then extended
    else extended ++ PySet_SubSets_loop rest size

/-- Embedding of `PySet_SubSets` (relations.h lines 379-485): an empty input
set yields the single empty subset regardless of `size`; `size == 1` yields
the singletons; otherwise the popping loop runs on a fresh copy of the input
set (the copy is the list itself in this functional model). -/
def PySet_SubSets (s : List α) (size : Int) : List (List α) :=
  if s.length = 0 then [[]]
  else if size = 1 then s.map fun x => [x]
  else PySet_SubSets_loop s size

/-- Instrumented model of one invocation of `PySet_SubSets` that tracks the
contents of the caller's argument set object.  In the C source every
operation applied to `set` is a read — `PySet_GET_SIZE(set)` (lines 381,
388, 395), `PyObject_GetIter(set)` in the `size == 1` branch (line 401), and
`PySet_New(set)` (line 429), which copies the contents into the freshly
allocated object `myset`.  Every mutating call (`PySet_Pop` at line 437,
`PySet_Add` at line 457) targets `myset` or a subset object built by the
recursive call, both distinct from `set`.  Each read threads the tracked
contents through unchanged; a mutating call applied to `set` would have had
to update them.  Returns the result together with the contents of `set`
at the moment the call returns. -/
def PySet_SubSets_tracked (s : List α) (size : Int) : List (List α) × List α :=
  if s.length = 0 then ([[]], s)
  else if size = 1 then (s.map fun x => [x], s)
  else
    let myset := s
    (PySet_SubSets_loop myset size, s)

/-! ## Dictionary primitives used by QBAFARelations (relations.c) -/

/-- `PyDict_GetItem`/`PyDict_GetItemWithError` on an association list:
return the set stored under the first entry whose key is `k`, if any. -/
def dictGet : List (α × List α) → α → Option (List α)
  | [], _ => none
  | (k', s) :: rest, k => if k' = k then some s else dictGet rest k

/-- The set `dict[k]`, taken to be empty when the key is absent. -/
def bucketOf (d : List (α × List α)) (k : α) : List α :=
  (dictGet d k).getD []

/-- `PyDict_GetItemDefaultPySet_New` (relations.c lines 113-133) alone:
ensure an entry for `k` exists, mapping it to a new empty set if absent
(Python dicts append fresh keys at the end of the iteration order). -/
def dictEnsure : List (α × List α) → α → List (α × List α)
  | [], k => [(k, [])]
  | (k', s) :: rest, k =>
    if k' = k then (k', s) :: rest else (k', s) :: dictEnsure rest k

/-- `PySet_Add` applied to the bucket returned by `PyDict_GetItem`-style
lookup: add `v` to the set stored under the first entry with key `k`
(no-op when no such entry exists, mirroring that the C code only calls it
on a bucket it has just obtained). -/
def bucketInsert : List (α × List α) → α → α → List (α × List α)
  | [], _, _ => []
  | (k', s) :: rest, k, v =>
    if k' = k then (k', pySetAdd s v) :: rest else (k', s) :: bucketInsert rest k v

/-- `PyDict_GetItemDefaultPySet_New` followed by `PySet_Add` on the returned
bucket — the combination used by `QBAFARelations_init` (relations.c lines
199-219) and `QBAFARelations_add` (lines 503-523). -/
def dictSetAdd : List (α × List α) → α → α → List (α × List α)
  | [], k, v => [(k, [v])]
  | (k', s) :: rest, k, v =>
    if k' = k then (k', pySetAdd s v) :: rest else (k', s) :: dictSetAdd rest k v

/-- `PyDict_GetItem` followed by `PySet_Discard` on the returned bucket —
the combination used by `QBAFARelations_remove` (relations.c lines 575-591).
The entry itself is never removed, only the member `v` of its set. -/
def dictDiscard : List (α × List α) → α → α → List (α × List α)
  | [], _, _ => []
  | (k', s) :: rest, k, v =>
    if k' = k then (k', pySetDiscard s v) :: rest else (k', s) :: dictDiscard rest k v

/-! ## The QBAFARelations object (relations.c) -/

/-- The three containers of a `QBAFARelationsObject` (relations.c lines
17-22): the set of (agent, patient) tuples and the two index dictionaries. -/
structure QBAFARelations (α : Type) where
  relations : List (α × α)
  agent_patients : List (α × List α)
  patient_agents : List (α × List α)
deriving DecidableEq, Repr

/-- `PySet_New(iterable)` on a list argument: the resulting set contains each
distinct element of the list once.  Iterating the list and adding each
element keeps the element inserted first among duplicates; the model keeps
one representative per equivalence class, which is all any claim observes. -/
def pySetOfList : List α → List α
  | [] => []
  | x :: xs => pySetAdd (pySetOfList xs) x

/-- `QBAFARelations_init` (relations.c lines 143-232) on an input that has
already passed the 2-tuple validation (the embedding types every item as a
pair, so the `PyTuple_Check`/`PyTuple_Size` test at line 183 always passes):
`relations` becomes the deduplicated pair set, and one pass over it inserts
each patient into `agent_patients[agent]` and each agent into
`patient_agents[patient]`, creating absent buckets.  The single C pass
updates the two (independent) dictionaries; it is written here as one fold
per dictionary, which yields the same two containers. -/
def QBAFARelations_init (relations : List (α × α)) : QBAFARelations α :=
  let rels := pySetOfList relations
  { relations := rels
    agent_patients := rels.foldl (fun d item => dictSetAdd d item.1 item.2) []
    patient_agents := rels.foldl (fun d item => dictSetAdd d item.2 item.1) [] }

/-- `QBAFARelations___len__` (relations.c lines 284-288): the size of the
`relations` set. -/
def QBAFARelations___len__ (self : QBAFARelations α) : Nat :=
  self.relations.length

/-- A Python object passed as the key of `__contains__`: either a tuple
object of some arity, or any non-tuple object. -/
inductive PyKey (α : Type) where
  | tuple : List α → PyKey α
  | nonTuple : PyKey α

/-- `QBAFARelations___contains__` (relations.c lines 297-307): keys that are
not tuples of size 2 raise `TypeError`; otherwise the pair is probed in the
`relations` set.  The function only reads `self`; the second component is
the state of the object when the call returns, identical on every path. -/
def QBAFARelations___contains__ (self : QBAFARelations α) (key : PyKey α) :
    Except String Bool × QBAFARelations α :=
  match key with
  | .tuple [agent, patient] =>
    (.ok (decide ((agent, patient) ∈ self.relations)), self)
  | _ => (.error "relation must be a tuple of size 2", self)

/-- `QBAFARelations_contains` (relations.c lines 428-456): packs its two
arguments into a 2-tuple and delegates to `__contains__` (whose size-2
check therefore always passes). -/
def QBAFARelations_contains (self : QBAFARelations α) (agent patient : α) :
    Except String Bool :=
  (QBAFARelations___contains__ self (.tuple [agent, patient])).1

/-- `QBAFARelations_add` (relations.c lines 466-526) along its non-failing
paths: a pair already present is a no-op; otherwise it is inserted into
`relations` and into both index buckets (created on demand). -/
def QBAFARelations_add (self : QBAFARelations α) (agent patient : α) :
    QBAFARelations α :=
  if (agent, patient) ∈ self.relations then self
  else
    { relations := pySetAdd self.relations (agent, patient)
      agent_patients := dictSetAdd self.agent_patients agent patient
      patient_agents := dictSetAdd self.patient_agents patient agent }

/-- `QBAFARelations_add` (relations.c lines 466-526) with its fallible
C-API calls made explicit: `fail n = true` makes the `n`-th fallible call of
the execution fail (allocation or hash failure), after which the C function
returns NULL immediately.  The second component is the state of the object
when the function returns — the C code mutates `self` in place and performs
no rollback on the error paths.  The numbered calls, in source order:
0: `PyTuple_Pack` (line 479); 1: `PySet_Contains` (line 486);
2: `PySet_Add(self->relations, tuple)` (line 498);
3: `PyDict_GetItemDefaultPySet_New(self->agent_patients, agent)` (line 503);
4: `PySet_Add(set, patient)` (line 509);
5: `PyDict_GetItemDefaultPySet_New(self->patient_agents, patient)` (line 514);
6: `PySet_Add(set, agent)` (line 520). -/
def QBAFARelations_add_fallible (fail : Nat → Bool) (self : QBAFARelations α)
    (agent patient : α) : Except String Unit × QBAFARelations α :=
  if fail 0 then (.error "PyTuple_Pack", self)
  else if fail 1 then (.error "PySet_Contains", self)
  else if (agent, patient) ∈ self.relations then (.ok (), self)
  else if fail 2 then (.error "PySet_Add relations", self)
  else
    let self1 := { self with relations := pySetAdd self.relations (agent, patient) }
    if fail 3 then (.error "PyDict_GetItemDefaultPySet_New agent_patients", self1)
    else
      let self2 := { self1 with agent_patients := dictEnsure self1.agent_patients agent }
      if fail 4 then (.error "PySet_Add agent_patients bucket", self2)
      else
        let self3 := { self2 with agent_patients := bucketInsert self2.agent_patients agent patient }
        if fail 5 then (.error "PyDict_GetItemDefaultPySet_New patient_agents", self3)
        else
          let self4 := { self3 with patient_agents := dictEnsure self3.patient_agents patient }
          if fail 6 then (.error "PySet_Add patient_agents bucket", self4)
          else
            (.ok (), { self4 with patient_agents := bucketInsert self4.patient_agents patient agent })

/-- `QBAFARelations_remove` (relations.c lines 536-594): an absent pair is a
no-op; otherwise the pair is discarded from `relations` and the two index
buckets, which are looked up with plain `PyDict_GetItem` — a NULL result
(absent bucket) makes the C function return NULL, modelled by the error
cases. -/
def QBAFARelations_remove (self : QBAFARelations α) (agent patient : α) :
    Except String (QBAFARelations α) :=
  if (agent, patient) ∈ self.relations then
    let self1 := { self with relations := pySetDiscard self.relations (agent, patient) }
    match dictGet self1.agent_patients agent with
    | none => .error "PyDict_GetItem agent_patients"
    | some _ =>
      let self2 := { self1 with agent_patients := dictDiscard self1.agent_patients agent patient }
      match dictGet self2.patient_agents patient with
      | none => .error "PyDict_GetItem patient_agents"
      | some _ =>
        .ok { self2 with patient_agents := dictDiscard self2.patient_agents patient agent }
  else .ok self

/-- The constructor `QBAFARelations_new` (relations.c lines 77-103) as a
function of its `type` argument (the `args`/`kwds` parameters are unused by
the C body).  Its first action is `type->tp_alloc(type, 0)` (line 81), a
dereference of `type`: with a valid type object (`some`) it returns a fresh
object whose three containers are empty (lines 83-100); with `type == NULL`
the dereference is undefined behavior (in practice a segfault), so the call
never returns an object — modelled as `none`. -/
def QBAFARelations_new (type? : Option Unit) : Option (QBAFARelations α) :=
  match type? with
  | some _ => some { relations := [], agent_patients := [], patient_agents := [] }
  | none => none

/-- `QBAFARelations_copy` (relations.c lines 603-617).  The C code allocates
the copy with `QBAFARelations_new(NULL, NULL, NULL)` (line 609): the NULL
`type` argument makes `QBAFARelations_new` crash at `type->tp_alloc`
before any container is built, so the method never produces a copy and
its result is the (non-)result of that call.  Even if the allocation were
reached past the crash, the subsequent
`QBAFARelations_init(copy, args, kwds)` call (line 612) passes a C
`PyObject *args[]` array and a `static char *kwds[]` array where `init`'s
`PyArg_ParseTupleAndKeywords` (line 149) requires a Python argument tuple
and keyword dict, so the `self->relations` the code meant to hand over —
the intent `create(self.relations)` — would still never be parsed out. -/
def QBAFARelations_copy (self : QBAFARelations α) : Option (QBAFARelations α) :=
  QBAFARelations_new none

/-- Whether `ok`/`error` was returned. -/
def exceptIsOk : Except ε β → Bool
  | .ok _ => true
  | .error _ => false

/-- Invariant 1 of the spec (§3): a pair is in `relations` iff the patient
is in the agent's `agent_patients` bucket iff the agent is in the patient's
`patient_agents` bucket. -/
def StoreInv (s : QBAFARelations α) : Prop :=
  ∀ a p : α,
    (((a, p) ∈ s.relations) ↔ p ∈ bucketOf s.agent_patients a) ∧
    (((a, p) ∈ s.relations) ↔ a ∈ bucketOf s.patient_agents p)

/-- Internal well-formedness that construction maintains: the pair set and
every dictionary bucket are duplicate-free. -/
def StoreWF (s : QBAFARelations α) : Prop :=
  s.relations.Nodup ∧
  (∀ e ∈ s.agent_patients, e.2.Nodup) ∧
  (∀ e ∈ s.patient_agents, e.2.Nodup)

/-- The stores reachable through the public interface: built by `init` from
some pair collection, then mutated by any sequence of `add` calls and
successful `remove` calls. -/
inductive StoreReachable : QBAFARelations α → Prop where
  | init : ∀ relations : List (α × α), StoreReachable (QBAFARelations_init relations)
  | add : ∀ (s : QBAFARelations α) (a p : α), StoreReachable s →
      StoreReachable (QBAFARelations_add s a p)
  | remove : ∀ (s s' : QBAFARelations α) (a p : α), StoreReachable s →
      QBAFARelations_remove s a p = .ok s' → StoreReachable s'

/-- All three containers record the pair (agent, patient). -/
def reflectsPair (s : QBAFARelations α) (a p : α) : Prop :=
  (a, p) ∈ s.relations ∧ p ∈ bucketOf s.agent_patients a ∧
    a ∈ bucketOf s.patient_agents p

/-- No container records the pair (agent, patient). -/
def omitsPair (s : QBAFARelations α) (a p : α) : Prop :=
  (a, p) ∉ s.relations ∧ p ∉ bucketOf s.agent_patients a ∧
    a ∉ bucketOf s.patient_agents p

instance (s : QBAFARelations α) (a p : α) : Decidable (reflectsPair s a p) :=
  inferInstanceAs (Decidable ((a, p) ∈ s.relations ∧ p ∈ bucketOf s.agent_patients a ∧
    a ∈ bucketOf s.patient_agents p))

instance (s : QBAFARelations α) (a p : α) : Decidable (omitsPair s a p) :=
  inferInstanceAs (Decidable ((a, p) ∉ s.relations ∧ p ∉ bucketOf s.agent_patients a ∧
    a ∉ bucketOf s.patient_agents p))

/-! ## Lemmas about the set primitives -/

theorem mem_pySetAdd {l : List α} {x a : α} : a ∈ pySetAdd l x ↔ a = x ∨ a ∈ l := by
  unfold pySetAdd
  split
  · rename_i h
    constructor
    · exact Or.inr
    · rintro (rfl | h2)
      · exact h
      · exact h2
  · exact List.mem_cons

theorem pySetAdd_of_not_mem {l : List α} {x : α} (h : x ∉ l) :
    pySetAdd l x = x :: l := by
  unfold pySetAdd
  rw [if_neg h]

theorem mem_pySetAdd_self (l : List α) (x : α) : x ∈ pySetAdd l x :=
  mem_pySetAdd.mpr (Or.inl rfl)

theorem pySetAdd_nil (x : α) : pySetAdd [] x = [x] := by
  unfold pySetAdd
  rw [if_neg (List.not_mem_nil x)]

theorem nodup_pySetAdd {l : List α} (h : l.Nodup) (x : α) :
    (pySetAdd l x).Nodup := by
  unfold pySetAdd
  split
  · exact h
  · rename_i hx
    exact List.nodup_cons.mpr ⟨hx, h⟩

theorem pySetAdd_ne_nil (l : List α) (x : α) : pySetAdd l x ≠ [] := by
  unfold pySetAdd
  split
  · rename_i h
    exact List.ne_nil_of_mem h
  · exact List.cons_ne_nil _ _

theorem pySetDiscard_subset (l : List α) (x : α) :
    ∀ a ∈ pySetDiscard l x, a ∈ l := by
  induction l with
  | nil => intro a ha; simp [pySetDiscard] at ha
  | cons y ys ih =>
    intro a ha
    by_cases hyx : y = x
    · simp only [pySetDiscard, if_pos hyx] at ha
      exact List.mem_cons_of_mem _ ha
    · simp only [pySetDiscard, if_neg hyx, List.mem_cons] at ha
      rcases ha with rfl | ha
      · exact List.mem_cons_self _ _
      · exact List.mem_cons_of_mem _ (ih a ha)

theorem mem_pySetDiscard {l : List α} (h : l.Nodup) {x a : α} :
    a ∈ pySetDiscard l x ↔ a ≠ x ∧ a ∈ l := by
  induction l with
  | nil => simp [pySetDiscard]
  | cons y ys ih =>
    obtain ⟨hy, hys⟩ := List.nodup_cons.mp h
    by_cases hyx : y = x
    · subst hyx
      simp only [pySetDiscard, if_pos rfl, List.mem_cons]
      constructor
      · intro ha
        exact ⟨fun he => hy (he ▸ ha), Or.inr ha⟩
      · rintro ⟨hne, rfl | ha⟩
        · exact absurd rfl hne
        · exact ha
    · simp only [pySetDiscard, if_neg hyx, List.mem_cons, ih hys]
      constructor
      · rintro (rfl | ⟨hne, ha⟩)
        · exact ⟨hyx, Or.inl rfl⟩
        · exact ⟨hne, Or.inr ha⟩
      · rintro ⟨hne, rfl | ha⟩
        · exact Or.inl rfl
        · exact Or.inr ⟨hne, ha⟩

theorem nodup_pySetDiscard {l : List α} (h : l.Nodup) (x : α) :
    (pySetDiscard l x).Nodup := by
  induction l with
  | nil => simp [pySetDiscard]
  | cons y ys ih =>
    obtain ⟨hy, hys⟩ := List.nodup_cons.mp h
    by_cases hyx : y = x
    · simp only [pySetDiscard, if_pos hyx]
      exact hys
    · simp only [pySetDiscard, if_neg hyx]
      refine List.nodup_cons.mpr ⟨fun hmem => hy ?_, ih hys⟩
      exact pySetDiscard_subset ys x y hmem

/-! ## Lemmas about the dictionary primitives -/

theorem dictGet_setAdd_self (d : List (α × List α)) (k v : α) :
    dictGet (dictSetAdd d k v) k = some (pySetAdd (bucketOf d k) v) := by
  induction d with
  | nil => simp [dictSetAdd, dictGet, bucketOf, pySetAdd_nil]
  | cons e rest ih =>
    obtain ⟨k', s⟩ := e
    by_cases h : k' = k
    · subst h
      simp [dictSetAdd, dictGet, bucketOf]
    · simp [dictSetAdd, dictGet, h, bucketOf, ih]

theorem dictGet_setAdd_ne (d : List (α × List α)) {x k : α} (v : α) (h : x ≠ k) :
    dictGet (dictSetAdd d k v) x = dictGet d x := by
  induction d with
  | nil => simp [dictSetAdd, dictGet, Ne.symm h]
  | cons e rest ih =>
    obtain ⟨k', s⟩ := e
    by_cases hk : k' = k
    · subst hk
      have hne : ¬ k' = x := fun hh => h hh.symm
      simp [dictSetAdd, dictGet, hne]
    · simp [dictSetAdd, dictGet, hk, ih]

theorem dictGet_discard_self (d : List (α × List α)) (k v : α) :
    dictGet (dictDiscard d k v) k = (dictGet d k).map (fun s => pySetDiscard s v) := by
  induction d with
  | nil => simp [dictDiscard, dictGet]
  | cons e rest ih =>
    obtain ⟨k', s⟩ := e
    by_cases h : k' = k
    · subst h
      simp [dictDiscard, dictGet]
    · simp [dictDiscard, dictGet, h, ih]

theorem dictGet_discard_ne (d : List (α × List α)) {x k : α} (v : α) (h : x ≠ k) :
    dictGet (dictDiscard d k v) x = dictGet d x := by
  induction d with
  | nil => simp [dictDiscard, dictGet]
  | cons e rest ih =>
    obtain ⟨k', s⟩ := e
    by_cases hk : k' = k
    · subst hk
      have hne : ¬ k' = x := fun hh => h hh.symm
      simp [dictDiscard, dictGet, hne]
    · simp [dictDiscard, dictGet, hk, ih]

theorem dictGet_mem {d : List (α × List α)} {k : α} {s : List α}
    (h : dictGet d k = some s) : (k, s) ∈ d := by
  induction d with
  | nil => simp [dictGet] at h
  | cons e rest ih =>
    obtain ⟨k', s'⟩ := e
    by_cases hk : k' = k
    · subst hk
      simp [dictGet] at h
      subst h
      exact List.mem_cons_self _ _
    · simp [dictGet, hk] at h
      exact List.mem_cons_of_mem _ (ih h)

theorem mem_bucketOf_setAdd {d : List (α × List α)} {k v x p : α} :
    p ∈ bucketOf (dictSetAdd d k v) x ↔ (x = k ∧ p = v) ∨ p ∈ bucketOf d x := by
  by_cases h : x = k
  · subst h
    simp [bucketOf, dictGet_setAdd_self, mem_pySetAdd]
  · simp [bucketOf, dictGet_setAdd_ne d v h, h]

theorem mem_bucketOf_discard {d : List (α × List α)}
    (hnd : ∀ e ∈ d, e.2.Nodup) {k v x p : α} :
    p ∈ bucketOf (dictDiscard d k v) x ↔ p ∈ bucketOf d x ∧ ¬(x = k ∧ p = v) := by
  by_cases h : x = k
  · subst h
    rw [bucketOf, dictGet_discard_self]
    cases hg : dictGet d x with
    | none => simp [bucketOf, hg]
    | some s =>
      have hs : s.Nodup := hnd _ (dictGet_mem hg)
      simp only [Option.map_some', Option.getD_some, bucketOf, hg,
        mem_pySetDiscard hs, ne_eq, true_and]
      tauto
  · simp [bucketOf, dictGet_discard_ne d v h, h]

theorem isSome_of_mem_bucketOf {d : List (α × List α)} {x p : α}
    (h : p ∈ bucketOf d x) : (dictGet d x).isSome := by
  cases hg : dictGet d x with
  | none => rw [bucketOf, hg] at h; simp at h
  | some s => simp

theorem isSome_dictGet_discard (d : List (α × List α)) (k v x : α) :
    (dictGet (dictDiscard d k v) x).isSome = (dictGet d x).isSome := by
  by_cases h : x = k
  · rw [h, dictGet_discard_self]
    cases dictGet d k <;> simp
  · rw [dictGet_discard_ne d v h]

theorem nodup_dictSetAdd {d : List (α × List α)} (hnd : ∀ e ∈ d, e.2.Nodup)
    (k v : α) : ∀ e ∈ dictSetAdd d k v, e.2.Nodup := by
  induction d with
  | nil =>
    intro e he
    simp [dictSetAdd] at he
    subst he
    simp
  | cons f rest ih =>
    obtain ⟨k', s⟩ := f
    intro e he
    by_cases h : k' = k
    · subst h
      simp [dictSetAdd] at he
      rcases he with he | he
      · subst he
        exact nodup_pySetAdd (hnd _ (List.mem_cons_self _ _)) _
      · exact hnd _ (List.mem_cons_of_mem _ he)
    · simp [dictSetAdd, h] at he
      rcases he with he | he
      · subst he
        exact hnd _ (List.mem_cons_self _ _)
      · exact ih (fun f hf => hnd _ (List.mem_cons_of_mem _ hf)) e he

theorem nodup_dictDiscard {d : List (α × List α)} (hnd : ∀ e ∈ d, e.2.Nodup)
    (k v : α) : ∀ e ∈ dictDiscard d k v, e.2.Nodup := by
  induction d with
  | nil => intro e he; simp [dictDiscard] at he
  | cons f rest ih =>
    obtain ⟨k', s⟩ := f
    intro e he
    by_cases h : k' = k
    · subst h
      simp [dictDiscard] at he
      rcases he with he | he
      · subst he
        exact nodup_pySetDiscard (hnd _ (List.mem_cons_self _ _)) _
      · exact hnd _ (List.mem_cons_of_mem _ he)
    · simp [dictDiscard, h] at he
      rcases he with he | he
      · subst he
        exact hnd _ (List.mem_cons_self _ _)
      · exact ih (fun f hf => hnd _ (List.mem_cons_of_mem _ hf)) e he

theorem bucketInsert_dictEnsure (d : List (α × List α)) (k v : α) :
    bucketInsert (dictEnsure d k) k v = dictSetAdd d k v := by
  induction d with
  | nil => simp [dictEnsure, bucketInsert, dictSetAdd, pySetAdd_nil]
  | cons e rest ih =>
    obtain ⟨k', s⟩ := e
    by_cases h : k' = k <;> simp [dictEnsure, bucketInsert, dictSetAdd, h, ih]

/-! ## Lemmas about pySetOfList -/

theorem mem_pySetOfList {l : List α} {x : α} : x ∈ pySetOfList l ↔ x ∈ l := by
  induction l with
  | nil => simp [pySetOfList]
  | cons y ys ih => simp [pySetOfList, mem_pySetAdd, ih]

theorem nodup_pySetOfList (l : List α) : (pySetOfList l).Nodup := by
  induction l with
  | nil => simp [pySetOfList]
  | cons y ys ih => exact nodup_pySetAdd ih y

theorem pySetOfList_eq_self {l : List α} (h : l.Nodup) : pySetOfList l = l := by
  induction l with
  | nil => rfl
  | cons y ys ih =>
    have hy : y ∉ ys := (List.nodup_cons.mp h).1
    have hys := ih (List.nodup_cons.mp h).2
    rw [pySetOfList, hys, pySetAdd_of_not_mem hy]

theorem length_pySetOfList_eq_dedup (l : List α) :
    (pySetOfList l).length = l.dedup.length := by
  have hperm : List.Perm (pySetOfList l) l.dedup := by
    apply List.perm_of_nodup_nodup_toFinset_eq (nodup_pySetOfList l) l.nodup_dedup
    ext x
    simp [mem_pySetOfList, List.mem_dedup]
  exact hperm.length_eq

/-! ## Lemmas about QBAFARelations construction and mutation -/

theorem init_relations (P : List (α × α)) :
    (QBAFARelations_init P).relations = pySetOfList P := rfl

theorem init_agent_patients (P : List (α × α)) :
    (QBAFARelations_init P).agent_patients =
      (pySetOfList P).foldl (fun d item => dictSetAdd d item.1 item.2) [] := rfl

theorem init_patient_agents (P : List (α × α)) :
    (QBAFARelations_init P).patient_agents =
      (pySetOfList P).foldl (fun d item => dictSetAdd d item.2 item.1) [] := rfl

theorem mem_bucketOf_foldl_fst (rels : List (α × α)) (d0 : List (α × List α))
    (x p : α) :
    p ∈ bucketOf (rels.foldl (fun d item => dictSetAdd d item.1 item.2) d0) x ↔
      (x, p) ∈ rels ∨ p ∈ bucketOf d0 x := by
  induction rels generalizing d0 with
  | nil => simp
  | cons q rest ih =>
    obtain ⟨a, b⟩ := q
    rw [List.foldl_cons, ih]
    simp only [mem_bucketOf_setAdd, List.mem_cons, Prod.mk.injEq]
    tauto

theorem mem_bucketOf_foldl_snd (rels : List (α × α)) (d0 : List (α × List α))
    (x p : α) :
    p ∈ bucketOf (rels.foldl (fun d item => dictSetAdd d item.2 item.1) d0) x ↔
      (p, x) ∈ rels ∨ p ∈ bucketOf d0 x := by
  induction rels generalizing d0 with
  | nil => simp
  | cons q rest ih =>
    obtain ⟨a, b⟩ := q
    rw [List.foldl_cons, ih]
    simp only [mem_bucketOf_setAdd, List.mem_cons, Prod.mk.injEq]
    tauto

theorem nodup_foldl_dictSetAdd (f g : α × α → α) (rels : List (α × α))
    (d0 : List (α × List α)) (h : ∀ e ∈ d0, e.2.Nodup) :
    ∀ e ∈ rels.foldl (fun d item => dictSetAdd d (f item) (g item)) d0,
      e.2.Nodup := by
  induction rels generalizing d0 with
  | nil => simpa using h
  | cons q rest ih =>
    rw [List.foldl_cons]
    exact ih _ (nodup_dictSetAdd h _ _)

theorem storeInv_init (P : List (α × α)) : StoreInv (QBAFARelations_init P) := by
  intro a p
  constructor
  · rw [init_relations, init_agent_patients, mem_bucketOf_foldl_fst]
    simp [bucketOf, dictGet]
  · rw [init_relations, init_patient_agents, mem_bucketOf_foldl_snd]
    simp [bucketOf, dictGet]

theorem storeWF_init (P : List (α × α)) : StoreWF (QBAFARelations_init P) := by
  refine ⟨?_, ?_, ?_⟩
  · rw [init_relations]
    exact nodup_pySetOfList P
  · rw [init_agent_patients]
    exact nodup_foldl_dictSetAdd _ _ _ _ (by simp)
  · rw [init_patient_agents]
    exact nodup_foldl_dictSetAdd _ _ _ _ (by simp)

theorem add_of_mem {s : QBAFARelations α} {a p : α} (h : (a, p) ∈ s.relations) :
    QBAFARelations_add s a p = s := by
  rw [QBAFARelations_add, if_pos h]

theorem add_of_not_mem {s : QBAFARelations α} {a p : α}
    (h : (a, p) ∉ s.relations) :
    QBAFARelations_add s a p =
      { relations := pySetAdd s.relations (a, p)
        agent_patients := dictSetAdd s.agent_patients a p
        patient_agents := dictSetAdd s.patient_agents p a } := by
  rw [QBAFARelations_add, if_neg h]

theorem storeInv_add {s : QBAFARelations α} (h : StoreInv s) (a p : α) :
    StoreInv (QBAFARelations_add s a p) := by
  by_cases hc : (a, p) ∈ s.relations
  · rw [add_of_mem hc]
    exact h
  · rw [add_of_not_mem hc]
    intro x y
    constructor
    · have hxy := (h x y).1
      simp only [mem_bucketOf_setAdd, mem_pySetAdd, Prod.mk.injEq]
      tauto
    · have hxy := (h x y).2
      simp only [mem_bucketOf_setAdd, mem_pySetAdd, Prod.mk.injEq]
      tauto

theorem storeWF_add {s : QBAFARelations α} (h : StoreWF s) (a p : α) :
    StoreWF (QBAFARelations_add s a p) := by
  by_cases hc : (a, p) ∈ s.relations
  · rw [add_of_mem hc]
    exact h
  · rw [add_of_not_mem hc]
    obtain ⟨h1, h2, h3⟩ := h
    refine ⟨?_, nodup_dictSetAdd h2 a p, nodup_dictSetAdd h3 p a⟩
    show (pySetAdd s.relations (a, p)).Nodup
    exact nodup_pySetAdd h1 _

theorem remove_of_not_mem {s : QBAFARelations α} {a p : α}
    (h : (a, p) ∉ s.relations) : QBAFARelations_remove s a p = .ok s := by
  rw [QBAFARelations_remove, if_neg h]

theorem remove_ok_of_inv {s : QBAFARelations α} (hinv : StoreInv s) {a p : α}
    (hm : (a, p) ∈ s.relations) :
    QBAFARelations_remove s a p = .ok
      { relations := pySetDiscard s.relations (a, p)
        agent_patients := dictDiscard s.agent_patients a p
        patient_agents := dictDiscard s.patient_agents p a } := by
  have hap : p ∈ bucketOf s.agent_patients a := ((hinv a p).1).mp hm
  have hpa : a ∈ bucketOf s.patient_agents p := ((hinv a p).2).mp hm
  obtain ⟨b1, hb1⟩ := Option.isSome_iff_exists.mp (isSome_of_mem_bucketOf hap)
  obtain ⟨b2, hb2⟩ := Option.isSome_iff_exists.mp (isSome_of_mem_bucketOf hpa)
  simp only [QBAFARelations_remove, if_pos hm, hb1, hb2]

theorem store_inv_wf_remove {s s' : QBAFARelations α} (hinv : StoreInv s)
    (hwf : StoreWF s) {a p : α}
    (hok : QBAFARelations_remove s a p = .ok s') : StoreInv s' ∧ StoreWF s' := by
  by_cases hm : (a, p) ∈ s.relations
  · rw [remove_ok_of_inv hinv hm] at hok
    injection hok with hok
    subst hok
    obtain ⟨hnd, hnd2, hnd3⟩ := hwf
    constructor
    · intro x y
      constructor
      · have hxy := (hinv x y).1
        rw [mem_pySetDiscard hnd]
        show _ ↔ y ∈ bucketOf (dictDiscard s.agent_patients a p) x
        rw [mem_bucketOf_discard hnd2]
        simp only [ne_eq, Prod.mk.injEq]
        tauto
      · have hxy := (hinv x y).2
        rw [mem_pySetDiscard hnd]
        show _ ↔ x ∈ bucketOf (dictDiscard s.patient_agents p a) y
        rw [mem_bucketOf_discard hnd3]
        simp only [ne_eq, Prod.mk.injEq]
        tauto
    · exact ⟨nodup_pySetDiscard hnd _, nodup_dictDiscard hnd2 _ _,
        nodup_dictDiscard hnd3 _ _⟩
  · rw [remove_of_not_mem hm] at hok
    injection hok with hok
    subst hok
    exact ⟨hinv, hwf⟩

theorem storeReachable_wf_inv {s : QBAFARelations α} (h : StoreReachable s) :
    StoreWF s ∧ StoreInv s := by
  induction h with
  | init P => exact ⟨storeWF_init P, storeInv_init P⟩
  | add s a p _ ih => exact ⟨storeWF_add ih.1 a p, storeInv_add ih.2 a p⟩
  | remove s s' a p _ hok ih =>
    have hr := store_inv_wf_remove ih.2 ih.1 hok
    exact ⟨hr.2, hr.1⟩

/-! ## Claim theorems about the relation store -/

/-- C2: for every store reachable by construction from an initial pair
collection followed by any sequence of successful `add`/`remove` calls, the
index-consistency invariant holds: a pair `(a, p)` is in the relations set
iff `p` is in the `agent_patients` bucket of `a` iff `a` is in the
`patient_agents` bucket of `p`.  Since every intermediate state of such a
sequence is itself reachable, the invariant holds before and after every
public operation. -/
theorem reachable_store_invariant (s : QBAFARelations α)
    (h : StoreReachable s) : StoreInv s :=
  (storeReachable_wf_inv h).2

theorem reachable_store_invariant_witness :
    StoreInv (QBAFARelations_init [(0, 1)]) :=
  reachable_store_invariant (QBAFARelations_init [(0, 1)])
    (StoreReachable.init [(0, 1)])

/-- C5: a store built by `init` from a collection `P` of pairs has size
`|dedup P|`, and `contains` returns true on every distinct pair of `P`. -/
theorem init_size_and_contains (P : List (α × α)) :
    QBAFARelations___len__ (QBAFARelations_init P) = P.dedup.length ∧
    ∀ a p : α, (a, p) ∈ P.dedup →
      QBAFARelations_contains (QBAFARelations_init P) a p = .ok true := by
  constructor
  · show (pySetOfList P).length = P.dedup.length
    exact length_pySetOfList_eq_dedup P
  · intro a p hm
    have hmem : (a, p) ∈ (QBAFARelations_init P).relations := by
      rw [init_relations, mem_pySetOfList]
      exact List.mem_dedup.mp hm
    simp [QBAFARelations_contains, QBAFARelations___contains__, hmem]

theorem init_size_and_contains_witness :
    QBAFARelations_contains (QBAFARelations_init [(0, 1), (0, 1), (2, 3)]) 0 1 =
      .ok true :=
  (init_size_and_contains [(0, 1), (0, 1), (2, 3)]).2 0 1 (by decide)

/-- C6 is contradicted by the code (the claim states the function's own
documented intent, "Return a copy of this instance"): `copy` can never
succeed.  Its first step, `QBAFARelations_new(NULL, NULL, NULL)`
(relations.c line 609), makes `QBAFARelations_new` dereference the NULL
`type` argument at `type->tp_alloc(type, 0)` (line 81), crashing before any
store is built — so `copy` returns no store for any input, in particular
not for the store built from the empty pair collection. -/
theorem copy_crashes (s : QBAFARelations α) :
    QBAFARelations_copy s = none ∧
    QBAFARelations_copy (QBAFARelations_init ([] : List (ℕ × ℕ))) = none :=
  ⟨rfl, rfl⟩

/-- C8: removing a present pair succeeds and leaves the key `a` present in
`agent_patients` and the key `p` present in `patient_agents` (the buckets
may become empty, but `remove` only discards members, it never deletes the
dictionary entry). -/
theorem remove_retains_bucket_keys (s : QBAFARelations α) (a p : α)
    (h : StoreReachable s) (hm : (a, p) ∈ s.relations) :
    exceptIsOk (QBAFARelations_remove s a p) = true ∧
    ∀ s' : QBAFARelations α, QBAFARelations_remove s a p = .ok s' →
      (dictGet s'.agent_patients a).isSome = true ∧
      (dictGet s'.patient_agents p).isSome = true := by
  obtain ⟨hwf, hinv⟩ := storeReachable_wf_inv h
  rw [remove_ok_of_inv hinv hm]
  refine ⟨rfl, ?_⟩
  intro s' hs'
  injection hs' with hs'
  subst hs'
  constructor
  · show (dictGet (dictDiscard s.agent_patients a p) a).isSome = true
    rw [isSome_dictGet_discard]
    exact isSome_of_mem_bucketOf ((hinv a p).1.mp hm)
  · show (dictGet (dictDiscard s.patient_agents p a) p).isSome = true
    rw [isSome_dictGet_discard]
    exact isSome_of_mem_bucketOf ((hinv a p).2.mp hm)

theorem remove_retains_bucket_keys_witness :
    (dictGet [(0, ([] : List ℕ))] 0).isSome = true ∧
    (dictGet [(1, ([] : List ℕ))] 1).isSome = true :=
  (remove_retains_bucket_keys (QBAFARelations_init [(0, 1)]) 0 1
    (StoreReachable.init [(0, 1)]) (by decide)).2
    (QBAFARelations.mk [] [(0, [])] [(1, [])]) rfl

/-- C9: probing membership with a key that is not a 2-tuple raises
`TypeError` instead of answering false, and the store is unchanged by the
failed call (the C function never writes to `self`).  The `contains` method
always packs its two arguments into a 2-tuple before delegating to
`__contains__`, so it never constructs such a key. -/
theorem contains_nonpair_raises (s : QBAFARelations α) (key : PyKey α)
    (h : ∀ a p : α, key ≠ PyKey.tuple [a, p]) :
    (QBAFARelations___contains__ s key).1 =
      .error "relation must be a tuple of size 2" ∧
    (QBAFARelations___contains__ s key).2 = s := by
  match key with
  | .nonTuple => exact ⟨rfl, rfl⟩
  | .tuple [] => exact ⟨rfl, rfl⟩
  | .tuple [a] => exact ⟨rfl, rfl⟩
  | .tuple [a, b] => exact absurd rfl (h a b)
  | .tuple (a :: b :: c :: rest) => exact ⟨rfl, rfl⟩

theorem contains_nonpair_raises_witness :
    (QBAFARelations___contains__ (QBAFARelations_init ([] : List (ℕ × ℕ)))
      (PyKey.tuple [])).1 = .error "relation must be a tuple of size 2" :=
  (contains_nonpair_raises (QBAFARelations_init ([] : List (ℕ × ℕ)))
    (PyKey.tuple []) (by intro a p hq; cases hq)).1

/-- C1 is refuted on the code: starting from the empty store (reachable,
and the pair `(0, 1)` is not present), an execution of `add(0, 1)` in which
the fourth fallible call — `PyDict_GetItemDefaultPySet_New` on
`agent_patients`, relations.c line 503 — fails returns an error with the
pair already inserted into the `relations` set but into neither index
bucket: the final state neither reflects the pair in all three structures
nor omits it from all three. -/
theorem add_midfailure_not_atomic_cex :
    StoreReachable (QBAFARelations_init ([] : List (ℕ × ℕ))) ∧
    (0, 1) ∉ (QBAFARelations_init ([] : List (ℕ × ℕ))).relations ∧
    ¬(reflectsPair (QBAFARelations_add_fallible (fun n => decide (n = 3))
        (QBAFARelations_init ([] : List (ℕ × ℕ))) 0 1).2 0 1 ∨
      omitsPair (QBAFARelations_add_fallible (fun n => decide (n = 3))
        (QBAFARelations_init ([] : List (ℕ × ℕ))) 0 1).2 0 1) :=
  ⟨StoreReachable.init [], by decide, by decide⟩

/-- C1 (amended): in an execution with no mid-operation failure, `add` of an
absent pair is atomic — the call succeeds, agrees with the total model of
`add`, and afterwards all three structures reflect the new pair.  (On a
mid-operation failure the C code performs no rollback, so the pair can be
left in the relations set but missing from the index buckets, as the
counterexample shows.) -/
theorem add_failure_free_is_atomic (s : QBAFARelations α) (a p : α)
    (h : (a, p) ∉ s.relations) :
    QBAFARelations_add_fallible (fun _ => false) s a p =
      (.ok (), QBAFARelations_add s a p) ∧
    reflectsPair (QBAFARelations_add s a p) a p := by
  constructor
  · simp [QBAFARelations_add_fallible, QBAFARelations_add, h,
      bucketInsert_dictEnsure]
  · rw [add_of_not_mem h]
    refine ⟨mem_pySetAdd_self _ _, ?_, ?_⟩
    · show p ∈ bucketOf (dictSetAdd s.agent_patients a p) a
      rw [mem_bucketOf_setAdd]
      exact Or.inl ⟨rfl, rfl⟩
    · show a ∈ bucketOf (dictSetAdd s.patient_agents p a) p
      rw [mem_bucketOf_setAdd]
      exact Or.inl ⟨rfl, rfl⟩

theorem add_failure_free_is_atomic_witness :
    reflectsPair (QBAFARelations_add (QBAFARelations_init ([] : List (ℕ × ℕ)))
      0 1) 0 1 :=
  (add_failure_free_is_atomic (QBAFARelations_init ([] : List (ℕ × ℕ))) 0 1
    (by decide)).2

/-! ## Lemmas about the set algebra -/

theorem noCommon_comm {A B : List α} :
    (∀ x ∈ A, x ∉ B) ↔ (∀ x ∈ B, x ∉ A) := by
  constructor <;> intro h x hx hx2 <;> exact h x hx2 hx

theorem PySet_IsDisjoint_spec (A B : List α) :
    PySet_IsDisjoint A B = true ↔ ∀ x ∈ A, x ∉ B := by
  by_cases h : A.length > B.length
  · simp only [PySet_IsDisjoint, if_pos h, List.all_eq_true,
      Bool.not_eq_true', decide_eq_false_iff_not]
    exact noCommon_comm.symm
  · simp only [PySet_IsDisjoint, if_neg h, List.all_eq_true,
      Bool.not_eq_true', decide_eq_false_iff_not]

theorem foldl_pySetAdd_filter_eq_nil (b : List α) (l : List α) :
    ∀ acc : List α,
      (l.foldl (fun new item => if item ∈ b then pySetAdd new item else new)
        acc = []) ↔
      (acc = [] ∧ ∀ x ∈ l, x ∉ b) := by
  induction l with
  | nil => intro acc; simp
  | cons y ys ih =>
    intro acc
    rw [List.foldl_cons, ih]
    by_cases hy : y ∈ b
    · rw [if_pos hy]
      constructor
      · rintro ⟨hadd, _⟩
        exact absurd hadd (pySetAdd_ne_nil _ _)
      · rintro ⟨_, hall⟩
        exact absurd hy (hall y (List.mem_cons_self _ _))
    · rw [if_neg hy]
      constructor
      · rintro ⟨hacc, hall⟩
        refine ⟨hacc, ?_⟩
        intro x hx
        rcases List.mem_cons.mp hx with rfl | hx2
        · exact hy
        · exact hall x hx2
      · rintro ⟨hacc, hall⟩
        exact ⟨hacc, fun x hx => hall x (List.mem_cons_of_mem _ hx)⟩

theorem PySet_Intersection_eq_nil_iff (A B : List α) :
    PySet_Intersection A B = [] ↔ ∀ x ∈ A, x ∉ B := by
  by_cases h : A.length > B.length
  · simp only [PySet_Intersection, if_pos h]
    rw [foldl_pySetAdd_filter_eq_nil]
    simp only [true_and]
    exact noCommon_comm.symm
  · simp only [PySet_Intersection, if_neg h]
    rw [foldl_pySetAdd_filter_eq_nil]
    simp only [true_and]

theorem bool_eq_of_true_iff {a b : Bool} (h : (a = true) ↔ (b = true)) :
    a = b := by
  cases a <;> cases b <;> simp_all

/-- C7: the disjointness test is symmetric, and it returns true exactly when
the intersection of the two sets is empty. -/
theorem isDisjoint_symm_iff_empty_intersection (A B : List α) :
    PySet_IsDisjoint A B = PySet_IsDisjoint B A ∧
    (PySet_IsDisjoint A B = true ↔ PySet_Intersection A B = []) := by
  constructor
  · apply bool_eq_of_true_iff
    rw [PySet_IsDisjoint_spec, PySet_IsDisjoint_spec]
    exact noCommon_comm
  · rw [PySet_IsDisjoint_spec, PySet_Intersection_eq_nil_iff]

/-! ## Lemmas about PySet_SubSets -/

theorem PySet_SubSets_nil (k : Int) : PySet_SubSets ([] : List α) k = [[]] := by
  simp [PySet_SubSets]

theorem PySet_SubSets_loop_cons (item : α) (rest : List α) (size : Int) :
    PySet_SubSets_loop (item :: rest) size =
      if (rest.length : Int) < size
        then (PySet_SubSets rest (size - 1)).map fun sub => pySetAdd sub item
        else ((PySet_SubSets rest (size - 1)).map fun sub => pySetAdd sub item)
          ++ PySet_SubSets_loop rest size := rfl


theorem PySet_SubSets_loop_length (s : List α) :
    ∀ k : ℕ, 2 ≤ k → k ≤ s.length →
      (PySet_SubSets_loop s (k : Int)).length = s.length.choose k := by
  induction s with
  | nil =>
    intro k h2 hle
    simp only [List.length_nil] at hle
    exact absurd hle (by omega)
  | cons item rest ih =>
    intro k h2 hle
    have hlec : k ≤ rest.length + 1 := by simpa using hle
    have hm1 : 1 ≤ k - 1 := by omega
    have hle1 : k - 1 ≤ rest.length := by omega
    have hcast : ((k : Int) - 1) = ((k - 1 : ℕ) : Int) := by omega
    have hrec : (PySet_SubSets rest ((k : Int) - 1)).length =
        rest.length.choose (k - 1) := by
      rw [hcast]
      by_cases h0 : rest.length = 0
      · exact absurd hle1 (by omega)
      · by_cases hk1 : k - 1 = 1
        · rw [hk1]
          simp [PySet_SubSets, h0, Nat.choose_one_right]
        · have hne : ¬((k - 1 : ℕ) : Int) = 1 := by
            intro hc
            exact hk1 (by exact_mod_cast hc)
          simp only [PySet_SubSets, if_neg h0, if_neg hne]
          exact ih (k - 1) (by omega) hle1
    rw [PySet_SubSets_loop_cons]
    by_cases hb : (rest.length : Int) < (k : Int)
    · rw [if_pos hb, List.length_map, hrec]
      have hk : k = rest.length + 1 := by omega
      subst hk
      simp only [List.length_cons, Nat.add_sub_cancel, Nat.choose_self]
    · rw [if_neg hb, List.length_append, List.length_map, hrec]
      have hkle : k ≤ rest.length := by omega
      rw [ih k h2 hkle]
      obtain ⟨k', rfl⟩ : ∃ k', k = k' + 1 := ⟨k - 1, by omega⟩
      simp only [List.length_cons, Nat.add_sub_cancel, Nat.choose_succ_succ]

theorem PySet_SubSets_length (s : List α) (k : ℕ) (h1 : 1 ≤ k)
    (h2 : k ≤ s.length) :
    (PySet_SubSets s (k : Int)).length = s.length.choose k := by
  by_cases h0 : s.length = 0
  · exact absurd h2 (by omega)
  · by_cases hk1 : k = 1
    · rw [hk1]
      simp [PySet_SubSets, h0, Nat.choose_one_right]
    · have hne : ¬((k : ℕ) : Int) = 1 := by
        intro hc
        exact hk1 (by exact_mod_cast hc)
      simp only [PySet_SubSets, if_neg h0, if_neg hne]
      exact PySet_SubSets_loop_length s k (by omega) h2

theorem PySet_SubSets_loop_mem (s : List α) :
    ∀ k : ℕ, s.Nodup → 2 ≤ k → k ≤ s.length →
      ∀ sub ∈ PySet_SubSets_loop s (k : Int),
        sub.length = k ∧ sub ⊆ s ∧ sub.Nodup := by
  induction s with
  | nil =>
    intro k _ h2 hle sub hsub
    simp [PySet_SubSets_loop] at hsub
  | cons item rest ih =>
    intro k hnd h2 hle sub hsub
    obtain ⟨hitem, hrest⟩ := List.nodup_cons.mp hnd
    have hlec : k ≤ rest.length + 1 := by simpa using hle
    have hm1 : 1 ≤ k - 1 := by omega
    have hle1 : k - 1 ≤ rest.length := by omega
    have hcast : ((k : Int) - 1) = ((k - 1 : ℕ) : Int) := by omega
    have hrec : ∀ sub' ∈ PySet_SubSets rest ((k : Int) - 1),
        sub'.length = k - 1 ∧ sub' ⊆ rest ∧ sub'.Nodup := by
      rw [hcast]
      by_cases h0 : rest.length = 0
      · exact absurd hle1 (by omega)
      · by_cases hk1 : k - 1 = 1
        · rw [hk1]
          intro sub' hsub'
          simp only [PySet_SubSets, if_neg h0, Nat.cast_one, if_true] at hsub'
          obtain ⟨x, hx, rfl⟩ := List.mem_map.mp hsub'
          refine ⟨by simp, ?_, List.nodup_singleton x⟩
          intro y hy
          rcases List.mem_cons.mp hy with rfl | hy2
          · exact hx
          · simp at hy2
        · have hne : ¬((k - 1 : ℕ) : Int) = 1 := by
            intro hc
            exact hk1 (by exact_mod_cast hc)
          simp only [PySet_SubSets, if_neg h0, if_neg hne]
          exact ih (k - 1) hrest (by omega) hle1
    have hext : ∀ su ∈ (PySet_SubSets rest ((k : Int) - 1)).map
        (fun sub => pySetAdd sub item),
        su.length = k ∧ su ⊆ item :: rest ∧ su.Nodup := by
      intro su hsu
      obtain ⟨sub', hsub', rfl⟩ := List.mem_map.mp hsu
      obtain ⟨hl, hss, hnd'⟩ := hrec sub' hsub'
      have hni : item ∉ sub' := fun hmem => hitem (hss hmem)
      rw [pySetAdd_of_not_mem hni]
      refine ⟨?_, ?_, List.nodup_cons.mpr ⟨hni, hnd'⟩⟩
      · simp only [List.length_cons, hl]
        omega
      · intro y hy
        rcases List.mem_cons.mp hy with rfl | hy2
        · exact List.mem_cons_self _ _
        · exact List.mem_cons_of_mem _ (hss hy2)
    rw [PySet_SubSets_loop_cons] at hsub
    by_cases hb : (rest.length : Int) < (k : Int)
    · rw [if_pos hb] at hsub
      exact hext sub hsub
    · rw [if_neg hb] at hsub
      rcases List.mem_append.mp hsub with hsub | hsub
      · exact hext sub hsub
      · have hkle : k ≤ rest.length := by omega
        obtain ⟨hl, hss, hnd'⟩ := ih k hrest h2 hkle sub hsub
        exact ⟨hl, fun y hy => List.mem_cons_of_mem _ (hss hy), hnd'⟩

theorem PySet_SubSets_mem (s : List α) (hnd : s.Nodup) (k : ℕ) (h1 : 1 ≤ k)
    (h2 : k ≤ s.length) :
    ∀ sub ∈ PySet_SubSets s (k : Int),
      sub.length = k ∧ sub ⊆ s ∧ sub.Nodup := by
  by_cases h0 : s.length = 0
  · exact absurd h2 (by omega)
  · by_cases hk1 : k = 1
    · rw [hk1]
      intro sub hsub
      simp only [PySet_SubSets, if_neg h0, Nat.cast_one, if_true] at hsub
      obtain ⟨x, hx, rfl⟩ := List.mem_map.mp hsub
      refine ⟨rfl, ?_, List.nodup_singleton x⟩
      intro y hy
      rcases List.mem_cons.mp hy with rfl | hy2
      · exact hx
      · simp at hy2
    · have hne : ¬((k : ℕ) : Int) = 1 := by
        intro hc
        exact hk1 (by exact_mod_cast hc)
      simp only [PySet_SubSets, if_neg h0, if_neg hne]
      exact PySet_SubSets_loop_mem s k hnd (by omega) h2

/-- C3 is refuted at k = 0: for the two-element set {0, 1}, `PySet_SubSets`
returns 2 subsets (it falls past the dead `size <= 0` branch into the
general popping loop), not C(2, 0) = 1. -/
theorem kSubsets_count_k0_cex :
    (PySet_SubSets [0, 1] (0 : Int)).length ≠ Nat.choose 2 0 := by decide

/-- C3 (amended): for every finite set S and every k with 1 ≤ k ≤ |S|, the
number of subsets returned by `kSubsets(S, k)` equals C(|S|, k); for the
empty set and k = 0 the single returned subset also matches C(0, 0) = 1.
(For k = 0 and |S| ≥ 2 the count differs from C(|S|, 0), as the
counterexample shows.) -/
theorem kSubsets_count (s : List α) (k : ℕ) (h1 : 1 ≤ k) (h2 : k ≤ s.length) :
    (PySet_SubSets s (k : Int)).length = s.length.choose k ∧
    (PySet_SubSets ([] : List α) (0 : Int)).length = Nat.choose 0 0 := by
  refine ⟨PySet_SubSets_length s k h1 h2, ?_⟩
  rw [PySet_SubSets_nil]
  rfl

theorem kSubsets_count_witness :
    (PySet_SubSets [0, 1, 2] (2 : Int)).length = Nat.choose 3 2 :=
  (kSubsets_count [0, 1, 2] 2 (by decide) (by decide)).1

/-- C4: for a duplicate-free non-empty set S and 1 ≤ k ≤ |S|, every element
of `kSubsets(S, k)` is a duplicate-free set of exactly k elements that is a
subset of S; and for the empty set the result is the one-element sequence
containing the empty set, for any k. -/
theorem kSubsets_elements (s : List α) (hnd : s.Nodup) (k : ℕ) (h1 : 1 ≤ k)
    (h2 : k ≤ s.length) :
    (∀ sub ∈ PySet_SubSets s (k : Int),
      sub.length = k ∧ sub ⊆ s ∧ sub.Nodup) ∧
    ∀ j : Int, PySet_SubSets ([] : List α) j = [[]] :=
  ⟨PySet_SubSets_mem s hnd k h1 h2, fun j => PySet_SubSets_nil j⟩

theorem kSubsets_elements_witness :
    PySet_SubSets ([] : List ℕ) (5 : Int) = [[]] :=
  (kSubsets_elements [0, 1] (by decide) 2 (by decide) (by decide)).2 5

/-- C10: a call to `kSubsets` leaves its input set unchanged — every C-API
call applied to `set` is a read, and the popping loop operates on the
freshly allocated copy `myset`; the tracked model returns the input set's
contents unchanged alongside the same result as the untracked model. -/
theorem kSubsets_input_unchanged (s : List α) (k : Int) :
    PySet_SubSets_tracked s k = (PySet_SubSets s k, s) := by
  by_cases h0 : s.length = 0 <;> by_cases h1 : k = 1 <;>
    simp [PySet_SubSets_tracked, PySet_SubSets, h0, h1]
